import Mathlib

/-!
# Verification of the Code-Extractor aggregation pipeline

A shallow embedding of the two Python source files `aggregate_project.py` and
`extractor.py`: a directory tree is modelled as an inductive value whose file
nodes carry the observable results of the only I/O operations the program
performs on them (`os.path.getsize`, reading with UTF-8 `errors='replace'`),
with `none` standing for the raised exception.  Python strings (sequences of
code points) are modelled by Lean `String`, the float ratio threshold by an
exact rational, and the output stream by a string accumulator.

The walker follows `os.walk(root)` top-down semantics: at each directory the
files are processed in enumeration order, then the walker descends into the
subdirectories that survive the `SKIP_DIRS` pruning, in enumeration order.
-/

/-- The NUL character `"\x00"` tested by `is_probably_binary`. -/
def nulChar : Char := Char.ofNat 0

/-- The Unicode replacement character `"�"` counted by `is_probably_binary`. -/
def replacementChar : Char := Char.ofNat 0xFFFD

/-- Python `s.endswith(suffix)`, computed on the code-point sequences. -/
def strEndsWith (s suffix : String) : Bool :=
  List.isPrefixOf suffix.toList.reverse s.toList.reverse

/-- Code-point lexicographic `<=` on character lists (Python string comparison). -/
def charListLe : List Char → List Char → Bool
  | [], _ => true
  | _ :: _, [] => false
  | a :: as, b :: bs =>
    if a.toNat < b.toNat then true
    else if b.toNat < a.toNat then false
    else charListLe as bs

/-- Python `<=` on strings: code-point lexicographic order. -/
def strLe (a b : String) : Bool :=
  charListLe a.toList b.toList

/-- Python `sorted` on a list of names (lexicographic by code point). -/
def sortStrings (l : List String) : List String :=
  List.insertionSort (fun a b => strLe a b = true) l

/-- `SKIP_DIRS`: directory names never descended into
(`aggregate_project.py` lines 8-39, identical in `extractor.py`). -/
def SKIP_DIRS : List String :=
  ["node_modules", ".pnpm-store", ".yarn", ".turbo",
   "build", "dist", ".next", ".nuxt", ".output", ".vite",
   ".dart_tool", ".gradle", "ios", "android",
   ".idea", ".vscode", "coverage",
   ".git", ".svn", ".hg", "__pycache__"]

/-- `is_probably_binary(text, max_replacement_ratio)` (`aggregate_project.py`
lines 42-59, identical in `extractor.py`): binary iff the text contains a NUL
character, or is nonempty and the fraction of replacement characters exceeds
the threshold.  The float ratio test `replacement_count / total_length >
max_replacement_ratio` is transcribed in exact rational arithmetic; the
comparison is written cross-multiplied (`num * len < den * count`) so it
computes by kernel reduction, and the theorem for claim C3 proves it equal to
the division form. -/
def is_probably_binary (text : String) (max_replacement_ratio : ℚ) : Bool :=
  if text.toList.contains nulChar then
    true
  else
    let total_length := text.length
    if total_length = 0 then
      false
    else
      let replacement_count := text.toList.count replacementChar
      decide (max_replacement_ratio.num * (total_length : Int) <
        (max_replacement_ratio.den : Int) * (replacement_count : Int))

/-- The default `max_replacement_ratio = 0.3`, as the exact rational 3/10,
given in reduced constructor form so that it evaluates in the kernel. -/
def defaultRatio : ℚ := Rat.mk' 3 10 (by decide) (by decide)

mutual
/-- One node of the modelled directory tree.  A `file` carries the result of
`os.path.getsize` (`none` = `OSError`) and of the full UTF-8
`errors='replace'` read (`none` = raised exception). -/
inductive Entry : Type where
  | file (name : String) (size : Option Nat) (content : Option String) : Entry
  | dir (name : String) (entries : EntryList) : Entry
/-- The children of a directory, in filesystem enumeration order. -/
inductive EntryList : Type where
  | nil : EntryList
  | cons (e : Entry) (es : EntryList) : EntryList
end

/-- Build an `EntryList` from a `List` literal. -/
def el : List Entry → EntryList
  | [] => .nil
  | e :: es => .cons e (el es)

/-- The name of an entry (what `os.listdir` reports for it). -/
def entryName : Entry → String
  | .file n _ _ => n
  | .dir n _ => n

/-- The names of a directory's children, in enumeration order (`os.listdir`). -/
def listNames : EntryList → List String
  | .nil => []
  | .cons e es => entryName e :: listNames es

/-- Look up the subdirectory named `d` (used for `os.path.isdir` checks on
`.github` and `workflows`). -/
def findDir : EntryList → String → Option EntryList
  | .nil, _ => none
  | .cons (.dir n sub) es, d => if n = d then some sub else findDir es d
  | .cons (.file _ _ _) es, d => findDir es d

/-- Look up the entry named `n` (what opening `workflows_dir/name` hits). -/
def findEntry : EntryList → String → Option Entry
  | .nil, _ => none
  | .cons e es, n => if entryName e = n then some e else findEntry es n

mutual
/-- Deletion of every excluded-name subtree inside one entry: a file is
kept as is, a directory keeps its name and has its children pruned
recursively (used to state the pruning claim C6). -/
def pruneEntry : Entry → Entry
  | .file n s c => .file n s c
  | .dir d sub => .dir d (pruneList sub)
/-- Deletion of every subdirectory whose name is in `SKIP_DIRS`, at every
depth: such a directory is removed with its whole subtree, every other
entry is kept in order with its own children pruned recursively (used to
state the pruning claim C6). -/
def pruneList : EntryList → EntryList
  | .nil => .nil
  | .cons (.file n s c) es => .cons (pruneEntry (.file n s c)) (pruneList es)
  | .cons (.dir d sub) es =>
    if d ∈ SKIP_DIRS then pruneList es
    else .cons (pruneEntry (.dir d sub)) (pruneList es)
end

/-- The run configuration of `aggregate_project.py`'s
`aggregate_project_files` (its four parameters, with `max_file_size_mb`
already converted to the byte threshold `max_bytes`, and paths taken as
already absolute and normalized). -/
structure RunConfig where
  root_dir : String
  output_path : String
  max_bytes : Nat
  include_git_workflows : Bool

/-- The mutable state of one run of `aggregate_project.py`: the six counters
(lines 103-108) and the output stream accumulated as a string.  The two
`ghost_` fields are instrumentation, not source state: they count the two
events that touch the counters asymmetrically (the silent output-file skip at
line 158-160, which increments only `files_seen`, and a workflow read failure
at line 124-127, which increments only `files_failed`); they are needed to
state the accounting invariant of claim C1 and change no observable field. -/
structure St where
  files_seen : Nat
  files_aggregated : Nat
  files_skipped_size : Nat
  files_skipped_binary : Nat
  files_failed : Nat
  workflows_included : Nat
  out : String
  ghost_output_skips : Nat
  ghost_workflow_failures : Nat

/-- The initial state: all counters zero, empty output. -/
def initSt : St := ⟨0, 0, 0, 0, 0, 0, "", 0, 0⟩

/-- The exact write sequence that frames one record (lines 193-201 for kind
`"FILE"`, lines 130-136 for kind `"GIT WORKFLOW"`; identical in
`extractor.py` lines 162-170): separator line, `"{kind}: {rel_path}"` line,
separator line plus blank line, the content, a newline unless the content
already ends in one, and one extra newline. -/
def writeRecord (out : String) (kind rel_path content : String) : String :=
  let out := out ++ "========================================\n"
  let out := out ++ kind ++ ": " ++ rel_path ++ "\n"
  let out := out ++ "========================================\n\n"
  let out := out ++ content
  let out := if strEndsWith content "\n" then out else out ++ "\n"
  out ++ "\n"

/-- `os.path.relpath(os.path.join(current_root, name), root_dir)`: the
root-relative path of a file named `name` in the directory whose
root-relative path is `rel_dir` (`""` for the root itself). -/
def joinRel (rel_dir name : String) : String :=
  if rel_dir = "" then name else rel_dir ++ "/" ++ name

/-- The body of the per-file loop of the tree phase (`aggregate_project.py`
lines 153-203): increment `files_seen`; silently skip the output file; stat
(failure counts as failed); skip files strictly larger than `max_bytes`;
read (failure counts as failed); classify binary; otherwise write a `FILE`
record and count the file as aggregated. -/
def processFile (cfg : RunConfig) (rel_dir : String) (st : St) (name : String)
    (size : Option Nat) (content : Option String) : St :=
  let rel_path := joinRel rel_dir name
  let file_path := cfg.root_dir ++ "/" ++ rel_path
  let st := { st with files_seen := st.files_seen + 1 }
  if file_path = cfg.output_path then
    { st with ghost_output_skips := st.ghost_output_skips + 1 }
  else
    match size with
    | none => { st with files_failed := st.files_failed + 1 }
    | some sz =>
      if sz > cfg.max_bytes then
        { st with files_skipped_size := st.files_skipped_size + 1 }
      else
        match content with
        | none => { st with files_failed := st.files_failed + 1 }
        | some c =>
          if is_probably_binary c defaultRatio then
            { st with files_skipped_binary := st.files_skipped_binary + 1 }
          else
            { st with out := writeRecord st.out "FILE" rel_path c,
                      files_aggregated := st.files_aggregated + 1 }

/-- The `for name in files` loop of one `os.walk` step: process the files of
the current directory in enumeration order (directory children are not
touched here). -/
def filesPass (cfg : RunConfig) (rel_dir : String) (st : St) : EntryList → St
  | .nil => st
  | .cons (.file n sz c) es => filesPass cfg rel_dir (processFile cfg rel_dir st n sz c) es
  | .cons (.dir _ _) es => filesPass cfg rel_dir st es

mutual
/-- Descent into one child entry after the current directory's files were
processed: files contribute nothing here, a subdirectory whose name is in
`SKIP_DIRS` is pruned (`dirs[:] = [d for d in dirs if d not in SKIP_DIRS]`,
line 143), any other subdirectory is walked recursively. -/
def walkSub (cfg : RunConfig) (rel_dir : String) (st : St) : Entry → St
  | .file _ _ _ => st
  | .dir d sub =>
    if d ∈ SKIP_DIRS then st
    else walkList cfg (joinRel rel_dir d) (filesPass cfg (joinRel rel_dir d) st sub) sub
/-- Descent into all children of the current directory, in enumeration
order. -/
def walkList (cfg : RunConfig) (rel_dir : String) (st : St) : EntryList → St
  | .nil => st
  | .cons e es => walkList cfg rel_dir (walkSub cfg rel_dir st e) es
end

/-- The full `os.walk(root_dir)` tree phase (lines 141-203): top-down, at
each directory first the files, then the surviving subdirectories. -/
def walkTree (cfg : RunConfig) (st : St) (es : EntryList) : St :=
  walkList cfg "" (filesPass cfg "" st es) es

/-- The body of the workflow loop (lines 117-137): skip names without a
`.yml`/`.yaml` extension, then open `workflows_dir/wf_name`; a failed read
(including hitting a directory of that name) counts as failed and is
skipped, a successful read is written as a `GIT WORKFLOW` record with its
root-relative path and counted in `workflows_included`. -/
def processWorkflowName (_cfg : RunConfig) (wfEntries : EntryList) (st : St)
    (wf_name : String) : St :=
  if !(strEndsWith wf_name ".yml" || strEndsWith wf_name ".yaml") then st
  else
    match findEntry wfEntries wf_name with
    | some (.file _ _ (some wf_content)) =>
      { st with out := writeRecord st.out "GIT WORKFLOW" (".github/workflows/" ++ wf_name) wf_content,
                workflows_included := st.workflows_included + 1 }
    | _ =>
      { st with files_failed := st.files_failed + 1,
                ghost_workflow_failures := st.ghost_workflow_failures + 1 }

/-- The workflow phase (lines 113-139): only when enabled, and only when
`root_dir/.github/workflows` is a directory; iterates over
`sorted(os.listdir(workflows_dir))`.  (The `except OSError: pass` guard
around the listing loop is unreachable in this model, where listing an
existing directory always succeeds.) -/
def workflowPhase (cfg : RunConfig) (root : EntryList) (st : St) : St :=
  if cfg.include_git_workflows then
    match findDir root ".github" with
    | none => st
    | some gh =>
      match findDir gh "workflows" with
      | none => st
      | some ws => (sortStrings (listNames ws)).foldl (processWorkflowName cfg ws) st
  else st

/-- `aggregate_project_files` of `aggregate_project.py` (lines 62-215).  The
root argument is `none` when `os.path.isdir(root_dir)` is false, in which
case the run aborts (`sys.exit(1)`, line 92-94) before the output file is
opened; otherwise the workflow phase runs first, then the tree phase, and
the final state (counters plus output contents) is returned. -/
def aggregate_project_files (cfg : RunConfig) (root : Option EntryList) : Except String St :=
  match root with
  | none => .error ("Root directory does not exist or is not a directory: " ++ cfg.root_dir)
  | some es => .ok (walkTree cfg (workflowPhase cfg es initSt) es)

namespace Extractor

/-- The run configuration of `extractor.py`'s `aggregate_project_files`: its
three parameters, with no workflow toggle. -/
structure RunConfig where
  root_dir : String
  output_path : String
  max_bytes : Nat

/-- The mutable state of one run of `extractor.py`: its five counters (lines
102-106) and the output stream. -/
structure St where
  files_seen : Nat
  files_aggregated : Nat
  files_skipped_size : Nat
  files_skipped_binary : Nat
  files_failed : Nat
  out : String

/-- The initial state of `extractor.py`: all counters zero, empty output. -/
def initSt : St := ⟨0, 0, 0, 0, 0, ""⟩

/-- The body of the per-file loop of `extractor.py` (lines 122-172),
line-for-line the same checks as `aggregate_project.py`'s tree phase. -/
def processFile (cfg : RunConfig) (rel_dir : String) (st : St) (name : String)
    (size : Option Nat) (content : Option String) : St :=
  let rel_path := joinRel rel_dir name
  let file_path := cfg.root_dir ++ "/" ++ rel_path
  let st := { st with files_seen := st.files_seen + 1 }
  if file_path = cfg.output_path then
    st
  else
    match size with
    | none => { st with files_failed := st.files_failed + 1 }
    | some sz =>
      if sz > cfg.max_bytes then
        { st with files_skipped_size := st.files_skipped_size + 1 }
      else
        match content with
        | none => { st with files_failed := st.files_failed + 1 }
        | some c =>
          if is_probably_binary c defaultRatio then
            { st with files_skipped_binary := st.files_skipped_binary + 1 }
          else
            { st with out := writeRecord st.out "FILE" rel_path c,
                      files_aggregated := st.files_aggregated + 1 }

/-- `extractor.py`'s `for name in files` loop. -/
def filesPass (cfg : RunConfig) (rel_dir : String) (st : St) : EntryList → St
  | .nil => st
  | .cons (.file n sz c) es => filesPass cfg rel_dir (processFile cfg rel_dir st n sz c) es
  | .cons (.dir _ _) es => filesPass cfg rel_dir st es

mutual
/-- `extractor.py`'s descent into one child (pruning at line 112). -/
def walkSub (cfg : RunConfig) (rel_dir : String) (st : St) : Entry → St
  | .file _ _ _ => st
  | .dir d sub =>
    if d ∈ SKIP_DIRS then st
    else walkList cfg (joinRel rel_dir d) (filesPass cfg (joinRel rel_dir d) st sub) sub
/-- `extractor.py`'s descent into all children in enumeration order. -/
def walkList (cfg : RunConfig) (rel_dir : String) (st : St) : EntryList → St
  | .nil => st
  | .cons e es => walkList cfg rel_dir (walkSub cfg rel_dir st e) es
end

/-- `extractor.py`'s `os.walk(root_dir)` loop (lines 110-172). -/
def walkTree (cfg : RunConfig) (st : St) (es : EntryList) : St :=
  walkList cfg "" (filesPass cfg "" st es) es

/-- `aggregate_project_files` of `extractor.py` (lines 62-182): the same
root-validity gate and tree walk, with no workflow phase. -/
def aggregate_project_files (cfg : RunConfig) (root : Option EntryList) : Except String St :=
  match root with
  | none => .error ("Root directory does not exist or is not a directory: " ++ cfg.root_dir)
  | some es => .ok (walkTree cfg initSt es)

end Extractor

/-- A line of forty `=` characters, as the spec describes the separator. -/
def fortyEquals : String := ⟨List.replicate 40 '='⟩

/-- The accounting balance of claim C1, with the two asymmetric events made
explicit: every `files_seen` increment lands in exactly one bucket except
the silent output-file skip, and every workflow read failure increments
`files_failed` without a `files_seen` increment. -/
def counters_balanced (st : St) : Prop :=
  st.files_seen + st.ghost_workflow_failures =
    st.files_aggregated + st.files_skipped_size + st.files_skipped_binary +
      st.files_failed + st.ghost_output_skips

/-- The number of files among the immediate children of a directory. -/
def fileCount : EntryList → Nat
  | .nil => 0
  | .cons (.file _ _ _) es => fileCount es + 1
  | .cons (.dir _ _) es => fileCount es

mutual
/-- The number of files the tree walk visits strictly below one child entry
(respecting `SKIP_DIRS` pruning). -/
def seenSub : Entry → Nat
  | .file _ _ _ => 0
  | .dir d sub => if d ∈ SKIP_DIRS then 0 else fileCount sub + seenList sub
/-- The number of files the tree walk visits strictly below the children of
a directory (respecting `SKIP_DIRS` pruning). -/
def seenList : EntryList → Nat
  | .nil => 0
  | .cons e es => seenSub e + seenList es
end

/-- The total number of files the tree walk visits under the root. -/
def seenTotal (es : EntryList) : Nat := fileCount es + seenList es

/-- The extension test of the workflow loop (line 118):
`wf_name.endswith(".yml") or wf_name.endswith(".yaml")`. -/
def isWorkflowName (n : String) : Bool :=
  strEndsWith n ".yml" || strEndsWith n ".yaml"

/-- Whether opening and reading `workflows_dir/n` succeeds: it must name a
file whose read yields text (a directory or an unreadable file raises). -/
def wfReadOk (ws : EntryList) (n : String) : Bool :=
  match findEntry ws n with
  | some (.file _ _ (some _)) => true
  | _ => false

/-- The bytes the workflow phase contributes for the name `n`: one
`GIT WORKFLOW` record with root-relative path when the read succeeds,
nothing when it fails. -/
def wfRecord (ws : EntryList) (n : String) : String :=
  match findEntry ws n with
  | some (.file _ _ (some c)) =>
    writeRecord "" "GIT WORKFLOW" (".github/workflows/" ++ n) c
  | _ => ""

/-- Concatenation of a list of strings (in order). -/
def strConcat : List String → String
  | [] => ""
  | s :: l => s ++ strConcat l

/-- The observable outcome of a run, shared by both implementations: the
five common counters and the output bytes (claim C9). -/
def obs (st : St) : Nat × Nat × Nat × Nat × Nat × String :=
  (st.files_seen, st.files_aggregated, st.files_skipped_size,
    st.files_skipped_binary, st.files_failed, st.out)

/-- The observable outcome of an `extractor.py` run (claim C9). -/
def Extractor.obs (st : Extractor.St) : Nat × Nat × Nat × Nat × Nat × String :=
  (st.files_seen, st.files_aggregated, st.files_skipped_size,
    st.files_skipped_binary, st.files_failed, st.out)

/-- Fixture: a run configuration with the workflow phase disabled. -/
def cfgT : RunConfig := ⟨"/proj", "/proj/out.txt", 100, false⟩

/-- Fixture: a run configuration with the workflow phase enabled. -/
def cfgW : RunConfig := ⟨"/proj", "/proj/out.txt", 100, true⟩

/-- Fixture: a root whose only content is a workflow file whose read fails
(stat succeeds, read raises). -/
def treeWfFail : EntryList :=
  el [.dir ".github" (el [.dir "workflows" (el [.file "ci.yml" (some 3) none])])]

/-- Fixture: a root whose only content is two readable workflow files. -/
def treeTwoWf : EntryList :=
  el [.dir ".github" (el [.dir "workflows" (el
    [.file "deploy.yaml" (some 5) (some "d: 1\n"),
     .file "ci.yml" (some 5) (some "c: 1\n")])])]

/-- Fixture: the children of the workflow directory used by the C7 witness:
two recognised workflow files (one of which fails to read) and one file
without a workflow extension, deliberately listed out of order. -/
def wsMixed : EntryList :=
  el [.file "deploy.yaml" (some 4) (some "d: 1\n"),
      .file "ci.yml" (some 4) none,
      .file "README.md" (some 2) (some "r\n")]

/-- Fixture: a root containing `.github/workflows` with `wsMixed` inside. -/
def treeMixedWf : EntryList :=
  el [.dir ".github" (el [.dir "workflows" wsMixed])]

/-- Fixture: a single small readable text file. -/
def treeOneFile : EntryList := el [.file "a.txt" (some 5) (some "hello")]

/-- Fixture: a configuration whose root directory basename is itself a
member of the exclusion set (claim C10). -/
def cfgNM : RunConfig := ⟨"/home/node_modules", "/out.txt", 100, false⟩

/-- Fixture: an excluded directory holding a secret file, nested one level
down (`src/node_modules/secret.txt`), next to a normal file (claim C6). -/
def treeNested : EntryList :=
  el [.dir "src" (el
    [.dir "node_modules" (el [.file "secret.txt" (some 6) (some "secret")]),
     .file "a.txt" (some 5) (some "hello")])]

/-! ## Theorems -/

/-- Exact-rational bridge: the cross-multiplied comparison used in
`is_probably_binary` is the ratio comparison `thr < c / l`. -/
theorem ratio_lt_iff (c l : Nat) (thr : ℚ) (hl : 0 < l) :
    (thr < (c : ℚ) / (l : ℚ)) ↔ thr.num * (l : Int) < (thr.den : Int) * (c : Int) := by
  have hl' : (0:ℚ) < (l:ℚ) := by exact_mod_cast hl
  rw [lt_div_iff₀ hl']
  nth_rewrite 1 [← Rat.num_div_den thr]
  rw [div_mul_eq_mul_div, div_lt_iff₀ (by exact_mod_cast thr.pos)]
  constructor
  · intro h
    have h' : (thr.num : ℚ) * (l : ℚ) < ((thr.den : Int) : ℚ) * ((c : Int) : ℚ) := by
      push_cast at h ⊢
      linarith
    exact_mod_cast h'
  · intro h
    have h' : ((thr.num * (l : Int) : Int) : ℚ) < (((thr.den : Int) * (c : Int) : Int) : ℚ) := by
      exact_mod_cast h
    push_cast at h'
    linarith

/-- A string of length zero is the empty string. -/
theorem string_length_eq_zero {s : String} (h : s.length = 0) : s = "" :=
  String.ext (List.eq_nil_of_length_eq_zero h)

/-- C3: for every `text` and `threshold`, `is_probably_binary` returns true
iff `text` contains a literal NUL character, or otherwise is nonempty and
the count of replacement characters (U+FFFD) divided by the character length
strictly exceeds the threshold; the empty string returns false.  (The
function is pure by construction in this embedding: a function of exactly
its two arguments.) -/
theorem is_probably_binary_spec (text : String) (thr : ℚ) :
    (is_probably_binary text thr = true ↔
      nulChar ∈ text.toList ∨
        (text ≠ "" ∧
          thr < (text.toList.count replacementChar : ℚ) / (text.length : ℚ))) ∧
    is_probably_binary "" thr = false := by
  refine ⟨?_, rfl⟩
  unfold is_probably_binary
  by_cases hnul : nulChar ∈ text.toList
  · rw [if_pos (by simpa using hnul)]
    simp only [true_iff]
    exact Or.inl hnul
  · rw [if_neg (by simpa using hnul)]
    by_cases hzero : text.length = 0
    · rw [if_pos hzero]
      simp [hnul, string_length_eq_zero hzero]
    · rw [if_neg hzero]
      have hl : 0 < text.length := Nat.pos_of_ne_zero hzero
      have hne : text ≠ "" := by
        intro h
        exact hzero (by simp [h])
      have hlen : text.length = text.toList.length := rfl
      simp only [decide_eq_true_eq]
      rw [← ratio_lt_iff (text.toList.count replacementChar) text.length thr hl]
      constructor
      · intro h
        exact Or.inr ⟨hne, h⟩
      · rintro (h | ⟨-, h⟩)
        · exact absurd h hnul
        · exact h

/-- Appending to the accumulated output distributes over `writeRecord`. -/
theorem writeRecord_append (out kind rel_path content : String) :
    writeRecord out kind rel_path content = out ++ writeRecord "" kind rel_path content := by
  unfold writeRecord
  split <;> (apply String.ext; simp [String.data_append])

/-- C5: every record written to the output stream has the exact layout: a
line of 40 `=` characters, a line `"{KIND}: {relativePath}"`, a line of 40
`=` characters, a blank line, the file's full content, a newline appended
only if the content does not already end in one, and one additional blank
line; in particular, content already ending in a newline is followed by
exactly one blank line (a single extra `"\n"`), not two. -/
theorem writeRecord_layout (out kind rel_path content : String) :
    (writeRecord out kind rel_path content =
      out ++ fortyEquals ++ "\n" ++ (kind ++ ": " ++ rel_path) ++ "\n" ++
        fortyEquals ++ "\n" ++ "\n" ++ content ++
        (if strEndsWith content "\n" then "" else "\n") ++ "\n") ∧
    (strEndsWith content "\n" = true →
      writeRecord out kind rel_path content =
        out ++ fortyEquals ++ "\n" ++ (kind ++ ": " ++ rel_path) ++ "\n" ++
          fortyEquals ++ "\n" ++ "\n" ++ content ++ "\n") := by
  have hsep : ("========================================\n" : String).data
      = List.replicate 40 '=' ++ ['\n'] := by decide
  have hsep2 : ("========================================\n\n" : String).data
      = List.replicate 40 '=' ++ ['\n', '\n'] := by decide
  have hnl : ("\n" : String).data = ['\n'] := by decide
  have hforty : fortyEquals.data = List.replicate 40 '=' := rfl
  constructor
  · unfold writeRecord
    split
    · next hcond =>
      apply String.ext
      simp [String.data_append, hsep, hsep2, hnl, hforty, hcond]
    · next hcond =>
      apply String.ext
      simp [String.data_append, hsep, hsep2, hnl, hforty, hcond]
  · intro h
    unfold writeRecord
    split
    · apply String.ext
      simp [String.data_append, hsep, hsep2, hnl, hforty]
    · next hcond => exact absurd h hcond

/-- Witness for C5 at a concrete record whose content ends in a newline. -/
theorem writeRecord_layout_witness :
    strEndsWith "hi\n" "\n" = true ∧
    writeRecord "" "FILE" "a.txt" "hi\n" =
      "" ++ fortyEquals ++ "\n" ++ ("FILE" ++ ": " ++ "a.txt") ++ "\n" ++
        fortyEquals ++ "\n" ++ "\n" ++ "hi\n" ++ "\n" :=
  ⟨by decide, (writeRecord_layout "" "FILE" "a.txt" "hi\n").2 (by decide)⟩

/-- Case characterization of the per-file loop body: one equation per
outcome, in the order the checks are made. -/
theorem processFile_cases (cfg : RunConfig) (rel_dir name : String) (st : St)
    (size : Option Nat) (content : Option String) :
    (cfg.root_dir ++ "/" ++ joinRel rel_dir name = cfg.output_path →
      processFile cfg rel_dir st name size content =
        { st with files_seen := st.files_seen + 1,
                  ghost_output_skips := st.ghost_output_skips + 1 }) ∧
    (cfg.root_dir ++ "/" ++ joinRel rel_dir name ≠ cfg.output_path →
      size = none →
      processFile cfg rel_dir st name size content =
        { st with files_seen := st.files_seen + 1,
                  files_failed := st.files_failed + 1 }) ∧
    (∀ sz, cfg.root_dir ++ "/" ++ joinRel rel_dir name ≠ cfg.output_path →
      size = some sz → sz > cfg.max_bytes →
      processFile cfg rel_dir st name size content =
        { st with files_seen := st.files_seen + 1,
                  files_skipped_size := st.files_skipped_size + 1 }) ∧
    (∀ sz, cfg.root_dir ++ "/" ++ joinRel rel_dir name ≠ cfg.output_path →
      size = some sz → ¬ sz > cfg.max_bytes → content = none →
      processFile cfg rel_dir st name size content =
        { st with files_seen := st.files_seen + 1,
                  files_failed := st.files_failed + 1 }) ∧
    (∀ sz c, cfg.root_dir ++ "/" ++ joinRel rel_dir name ≠ cfg.output_path →
      size = some sz → ¬ sz > cfg.max_bytes → content = some c →
      is_probably_binary c defaultRatio = true →
      processFile cfg rel_dir st name size content =
        { st with files_seen := st.files_seen + 1,
                  files_skipped_binary := st.files_skipped_binary + 1 }) ∧
    (∀ sz c, cfg.root_dir ++ "/" ++ joinRel rel_dir name ≠ cfg.output_path →
      size = some sz → ¬ sz > cfg.max_bytes → content = some c →
      is_probably_binary c defaultRatio = false →
      processFile cfg rel_dir st name size content =
        { st with files_seen := st.files_seen + 1,
                  files_aggregated := st.files_aggregated + 1,
                  out := writeRecord st.out "FILE" (joinRel rel_dir name) c }) := by
  refine ⟨?_, ?_, ?_, ?_, ?_, ?_⟩
  · intro hout
    simp [processFile, hout]
  · intro hout hsz
    subst hsz
    simp [processFile, hout]
  · intro sz hout hsz hbig
    subst hsz
    simp [processFile, hout, hbig]
  · intro sz hout hsz hbig hc
    subst hsz; subst hc
    simp [processFile, hout, hbig]
  · intro sz c hout hsz hbig hc hbin
    subst hsz; subst hc
    simp [processFile, hout, hbig, hbin]
  · intro sz c hout hsz hbig hc hbin
    subst hsz; subst hc
    simp [processFile, hout, hbig, hbin]

/-- C4: per-file classification follows the order output-identity check
first (silent, no bucket), then stat (failure is `Fail`), then the size
check — strictly-greater-than `max_bytes` is `SkipSize` before any content
is consulted (the equations hold for `content = none` too), while size
exactly `max_bytes` falls through to the read — then the read (failure is
`Fail`), then the binary classifier, and a file passing everything is
aggregated. -/
theorem processFile_order (cfg : RunConfig) (rel_dir name : String) (st : St)
    (size : Option Nat) (content : Option String) :
    (cfg.root_dir ++ "/" ++ joinRel rel_dir name = cfg.output_path →
      processFile cfg rel_dir st name size content =
        { st with files_seen := st.files_seen + 1,
                  ghost_output_skips := st.ghost_output_skips + 1 }) ∧
    (cfg.root_dir ++ "/" ++ joinRel rel_dir name ≠ cfg.output_path →
      size = none →
      processFile cfg rel_dir st name size content =
        { st with files_seen := st.files_seen + 1,
                  files_failed := st.files_failed + 1 }) ∧
    (∀ sz, cfg.root_dir ++ "/" ++ joinRel rel_dir name ≠ cfg.output_path →
      size = some sz → sz > cfg.max_bytes →
      processFile cfg rel_dir st name size content =
        { st with files_seen := st.files_seen + 1,
                  files_skipped_size := st.files_skipped_size + 1 }) ∧
    (∀ sz, cfg.root_dir ++ "/" ++ joinRel rel_dir name ≠ cfg.output_path →
      size = some sz → ¬ sz > cfg.max_bytes → content = none →
      processFile cfg rel_dir st name size content =
        { st with files_seen := st.files_seen + 1,
                  files_failed := st.files_failed + 1 }) ∧
    (∀ sz c, cfg.root_dir ++ "/" ++ joinRel rel_dir name ≠ cfg.output_path →
      size = some sz → ¬ sz > cfg.max_bytes → content = some c →
      is_probably_binary c defaultRatio = true →
      processFile cfg rel_dir st name size content =
        { st with files_seen := st.files_seen + 1,
                  files_skipped_binary := st.files_skipped_binary + 1 }) ∧
    (∀ sz c, cfg.root_dir ++ "/" ++ joinRel rel_dir name ≠ cfg.output_path →
      size = some sz → ¬ sz > cfg.max_bytes → content = some c →
      is_probably_binary c defaultRatio = false →
      processFile cfg rel_dir st name size content =
        { st with files_seen := st.files_seen + 1,
                  files_aggregated := st.files_aggregated + 1,
                  out := writeRecord st.out "FILE" (joinRel rel_dir name) c }) :=
  processFile_cases cfg rel_dir name st size content

/-- Witness for C4: an oversized file with unreadable content is skipped
for size (so the size check precedes the read), a file of size exactly
`max_bytes` is read and aggregated, and the output file itself is excluded
silently even though its stat would fail. -/
theorem processFile_order_witness :
    processFile cfgT "" initSt "big.bin" (some 101) none =
      { initSt with files_seen := 1, files_skipped_size := 1 } ∧
    processFile cfgT "" initSt "a.txt" (some 100) (some "hello") =
      { initSt with files_seen := 1, files_aggregated := 1,
                    out := writeRecord "" "FILE" "a.txt" "hello" } ∧
    processFile cfgT "" initSt "out.txt" none none =
      { initSt with files_seen := 1, ghost_output_skips := 1 } := by
  refine ⟨?_, ?_, ?_⟩
  · exact (processFile_order cfgT "" "big.bin" initSt (some 101) none).2.2.1
      101 (by decide) rfl (by decide)
  · exact (processFile_order cfgT "" "a.txt" initSt (some 100)
      (some "hello")).2.2.2.2.2 100 "hello" (by decide) rfl (by decide) rfl (by decide)
  · exact (processFile_order cfgT "" "out.txt" initSt none none).1 (by decide)

/-- String append is associative. -/
theorem string_append_assoc (a b c : String) : a ++ b ++ c = a ++ (b ++ c) :=
  String.ext (by simp [String.data_append])

/-- Appending the empty string is the identity. -/
theorem string_append_empty (s : String) : s ++ "" = s :=
  String.ext (by simp [String.data_append, show ("" : String).data = [] from rfl])

/-- What one per-file step does to the run state: `files_seen` always grows
by one, the workflow counter and the workflow-failure ghost are untouched,
the output only ever grows at the end, and the C1 balance is preserved. -/
theorem processFile_deltas (cfg : RunConfig) (rel_dir name : String) (st : St)
    (size : Option Nat) (content : Option String) :
    (processFile cfg rel_dir st name size content).files_seen = st.files_seen + 1 ∧
    (processFile cfg rel_dir st name size content).workflows_included =
      st.workflows_included ∧
    (processFile cfg rel_dir st name size content).ghost_workflow_failures =
      st.ghost_workflow_failures ∧
    (∃ t, (processFile cfg rel_dir st name size content).out = st.out ++ t) ∧
    (counters_balanced st →
      counters_balanced (processFile cfg rel_dir st name size content)) := by
  obtain ⟨h1, h2, h3, h4, h5, h6⟩ := processFile_cases cfg rel_dir name st size content
  by_cases hout : cfg.root_dir ++ "/" ++ joinRel rel_dir name = cfg.output_path
  · rw [h1 hout]
    exact ⟨rfl, rfl, rfl, ⟨"", (string_append_empty _).symm⟩,
      fun hb => by unfold counters_balanced at *; simp; omega⟩
  · cases size with
    | none =>
      rw [h2 hout rfl]
      exact ⟨rfl, rfl, rfl, ⟨"", (string_append_empty _).symm⟩,
        fun hb => by unfold counters_balanced at *; simp; omega⟩
    | some sz =>
      by_cases hbig : sz > cfg.max_bytes
      · rw [h3 sz hout rfl hbig]
        exact ⟨rfl, rfl, rfl, ⟨"", (string_append_empty _).symm⟩,
          fun hb => by unfold counters_balanced at *; simp; omega⟩
      · cases content with
        | none =>
          rw [h4 sz hout rfl hbig rfl]
          exact ⟨rfl, rfl, rfl, ⟨"", (string_append_empty _).symm⟩,
            fun hb => by unfold counters_balanced at *; simp; omega⟩
        | some c =>
          cases hbin : is_probably_binary c defaultRatio with
          | true =>
            rw [h5 sz c hout rfl hbig rfl hbin]
            exact ⟨rfl, rfl, rfl, ⟨"", (string_append_empty _).symm⟩,
              fun hb => by unfold counters_balanced at *; simp; omega⟩
          | false =>
            rw [h6 sz c hout rfl hbig rfl hbin]
            refine ⟨rfl, rfl, rfl,
              ⟨writeRecord "" "FILE" (joinRel rel_dir name) c, ?_⟩,
              fun hb => by unfold counters_balanced at *; simp; omega⟩
            exact writeRecord_append st.out "FILE" (joinRel rel_dir name) c

/-- What the file pass over one directory's children does to the state. -/
theorem filesPass_facts (cfg : RunConfig) (rel : String) :
    ∀ (es : EntryList) (st : St),
      (filesPass cfg rel st es).files_seen = st.files_seen + fileCount es ∧
      (filesPass cfg rel st es).workflows_included = st.workflows_included ∧
      (filesPass cfg rel st es).ghost_workflow_failures =
        st.ghost_workflow_failures ∧
      (∃ t, (filesPass cfg rel st es).out = st.out ++ t) ∧
      (counters_balanced st → counters_balanced (filesPass cfg rel st es))
  | .nil, st => by
    exact ⟨by simp [filesPass, fileCount], rfl, rfl,
      ⟨"", (string_append_empty _).symm⟩, fun h => h⟩
  | .cons (.file n s c) es, st => by
    obtain ⟨ps, pw, pg, ⟨t1, po⟩, pb⟩ := processFile_deltas cfg rel n st s c
    obtain ⟨fs, fw, fg, ⟨t2, fo⟩, fb⟩ :=
      filesPass_facts cfg rel es (processFile cfg rel st n s c)
    refine ⟨?_, ?_, ?_, ⟨t1 ++ t2, ?_⟩, fun h => fb (pb h)⟩
    · rw [show filesPass cfg rel st (.cons (.file n s c) es) =
        filesPass cfg rel (processFile cfg rel st n s c) es from rfl, fs, ps]
      simp [fileCount]
      omega
    · rw [show filesPass cfg rel st (.cons (.file n s c) es) =
        filesPass cfg rel (processFile cfg rel st n s c) es from rfl, fw, pw]
    · rw [show filesPass cfg rel st (.cons (.file n s c) es) =
        filesPass cfg rel (processFile cfg rel st n s c) es from rfl, fg, pg]
    · rw [show filesPass cfg rel st (.cons (.file n s c) es) =
        filesPass cfg rel (processFile cfg rel st n s c) es from rfl, fo, po,
        string_append_assoc]
  | .cons (.dir d sub) es, st => by
    obtain ⟨fs, fw, fg, fo, fb⟩ := filesPass_facts cfg rel es st
    exact ⟨by rw [show filesPass cfg rel st (.cons (.dir d sub) es) =
        filesPass cfg rel st es from rfl, fs]; simp [fileCount], fw, fg, fo, fb⟩

mutual
/-- What descending into one child entry does to the state: `files_seen`
grows by the pruned subtree file count, the workflow counter and workflow
ghost are untouched, output only grows, and the C1 balance is preserved. -/
theorem walkSub_facts (cfg : RunConfig) (rel : String) (st : St) (e : Entry) :
    (walkSub cfg rel st e).files_seen = st.files_seen + seenSub e ∧
    (walkSub cfg rel st e).workflows_included = st.workflows_included ∧
    (walkSub cfg rel st e).ghost_workflow_failures = st.ghost_workflow_failures ∧
    (∃ t, (walkSub cfg rel st e).out = st.out ++ t) ∧
    (counters_balanced st → counters_balanced (walkSub cfg rel st e)) :=
  match e with
  | .file n s c => by
    exact ⟨by simp [walkSub, seenSub], rfl, rfl,
      ⟨"", (string_append_empty _).symm⟩, fun h => h⟩
  | .dir d sub => by
    rw [show walkSub cfg rel st (.dir d sub) =
      if d ∈ SKIP_DIRS then st
      else walkList cfg (joinRel rel d) (filesPass cfg (joinRel rel d) st sub) sub
      from rfl]
    by_cases hd : d ∈ SKIP_DIRS
    · rw [if_pos hd]
      exact ⟨by simp [seenSub, hd], rfl, rfl,
        ⟨"", (string_append_empty _).symm⟩, fun h => h⟩
    · rw [if_neg hd]
      obtain ⟨fs, fw, fg, ⟨t1, fo⟩, fb⟩ := filesPass_facts cfg (joinRel rel d) sub st
      obtain ⟨ls, lw, lg, ⟨t2, lo⟩, lb⟩ := walkList_facts cfg (joinRel rel d)
        (filesPass cfg (joinRel rel d) st sub) sub
      refine ⟨?_, ?_, ?_, ⟨t1 ++ t2, ?_⟩, fun h => lb (fb h)⟩
      · rw [ls, fs]
        simp [seenSub, hd]
        omega
      · rw [lw, fw]
      · rw [lg, fg]
      · rw [lo, fo, string_append_assoc]
/-- What descending into all children of a directory does to the state. -/
theorem walkList_facts (cfg : RunConfig) (rel : String) (st : St) (es : EntryList) :
    (walkList cfg rel st es).files_seen = st.files_seen + seenList es ∧
    (walkList cfg rel st es).workflows_included = st.workflows_included ∧
    (walkList cfg rel st es).ghost_workflow_failures = st.ghost_workflow_failures ∧
    (∃ t, (walkList cfg rel st es).out = st.out ++ t) ∧
    (counters_balanced st → counters_balanced (walkList cfg rel st es)) :=
  match es with
  | .nil => by
    exact ⟨by simp [walkList, seenList], rfl, rfl,
      ⟨"", (string_append_empty _).symm⟩, fun h => h⟩
  | .cons e rest => by
    obtain ⟨ss, sw, sg, ⟨t1, so⟩, sb⟩ := walkSub_facts cfg rel st e
    obtain ⟨ls, lw, lg, ⟨t2, lo⟩, lb⟩ :=
      walkList_facts cfg rel (walkSub cfg rel st e) rest
    refine ⟨?_, ?_, ?_, ⟨t1 ++ t2, ?_⟩, fun h => lb (sb h)⟩
    · rw [show walkList cfg rel st (.cons e rest) =
        walkList cfg rel (walkSub cfg rel st e) rest from rfl, ls, ss]
      simp [seenList]
      omega
    · rw [show walkList cfg rel st (.cons e rest) =
        walkList cfg rel (walkSub cfg rel st e) rest from rfl, lw, sw]
    · rw [show walkList cfg rel st (.cons e rest) =
        walkList cfg rel (walkSub cfg rel st e) rest from rfl, lg, sg]
    · rw [show walkList cfg rel st (.cons e rest) =
        walkList cfg rel (walkSub cfg rel st e) rest from rfl, lo, so,
        string_append_assoc]
end

/-- What the whole tree phase does to the state: `files_seen` grows by the
walk's file total, the workflow counter and workflow ghost are untouched,
output only grows, and the C1 balance is preserved. -/
theorem walkTree_facts (cfg : RunConfig) (st : St) (es : EntryList) :
    (walkTree cfg st es).files_seen = st.files_seen + seenTotal es ∧
    (walkTree cfg st es).workflows_included = st.workflows_included ∧
    (walkTree cfg st es).ghost_workflow_failures = st.ghost_workflow_failures ∧
    (∃ t, (walkTree cfg st es).out = st.out ++ t) ∧
    (counters_balanced st → counters_balanced (walkTree cfg st es)) := by
  obtain ⟨fs, fw, fg, ⟨t1, fo⟩, fb⟩ := filesPass_facts cfg "" es st
  obtain ⟨ls, lw, lg, ⟨t2, lo⟩, lb⟩ := walkList_facts cfg "" (filesPass cfg "" st es) es
  refine ⟨?_, ?_, ?_, ⟨t1 ++ t2, ?_⟩, fun h => lb (fb h)⟩
  · rw [show walkTree cfg st es = walkList cfg "" (filesPass cfg "" st es) es from rfl,
      ls, fs]
    simp [seenTotal]
    omega
  · rw [show walkTree cfg st es = walkList cfg "" (filesPass cfg "" st es) es from rfl,
      lw, fw]
  · rw [show walkTree cfg st es = walkList cfg "" (filesPass cfg "" st es) es from rfl,
      lg, fg]
  · rw [show walkTree cfg st es = walkList cfg "" (filesPass cfg "" st es) es from rfl,
      lo, fo, string_append_assoc]

/-- Case characterization of one workflow-loop step. -/
theorem processWorkflowName_eq (cfg : RunConfig) (ws : EntryList) (st : St) (n : String) :
    processWorkflowName cfg ws st n =
      if isWorkflowName n then
        (if wfReadOk ws n then
          { st with out := st.out ++ wfRecord ws n,
                    workflows_included := st.workflows_included + 1 }
        else
          { st with files_failed := st.files_failed + 1,
                    ghost_workflow_failures := st.ghost_workflow_failures + 1 })
      else st := by
  unfold processWorkflowName isWorkflowName wfReadOk wfRecord
  by_cases hn : (strEndsWith n ".yml" || strEndsWith n ".yaml") = true
  · rw [if_neg (by simp [hn]), if_pos hn]
    cases hfe : findEntry ws n with
    | none => simp [hfe]
    | some e =>
      cases e with
      | dir d sub => simp [hfe]
      | file fn fs fc =>
        cases fc with
        | none => simp [hfe]
        | some c =>
          dsimp only
          rw [writeRecord_append]
          simp only [reduceIte]
  · rw [if_pos (by simp [hn]), if_neg hn]

/-- The empty string is a left identity for append. -/
theorem string_empty_append (s : String) : "" ++ s = s :=
  String.ext (by simp [String.data_append, show ("" : String).data = [] from rfl])

/-- A recognised name that fails the read contributes no record bytes. -/
theorem wfRecord_of_not_readOk (ws : EntryList) (n : String)
    (hr : ¬ wfReadOk ws n = true) : wfRecord ws n = "" := by
  unfold wfRecord
  unfold wfReadOk at hr
  cases hfe : findEntry ws n with
  | none => rfl
  | some e =>
    cases e with
    | dir d sub => rfl
    | file fn fs fc =>
      cases fc with
      | none => rfl
      | some c =>
        rw [hfe] at hr
        exact absurd rfl hr

/-- Closed form of the workflow loop over an arbitrary name list: the output
grows by the records of the recognised names in order, `workflows_included`
by the number of recognised readable names, `files_failed` (and the
workflow-failure ghost) by the number of recognised unreadable names, and
nothing else changes. -/
theorem wfFold_spec (cfg : RunConfig) (ws : EntryList) (names : List String) :
    ∀ (st : St),
      (names.foldl (processWorkflowName cfg ws) st).out =
        st.out ++ strConcat ((names.filter (fun n => isWorkflowName n)).map (wfRecord ws)) ∧
      (names.foldl (processWorkflowName cfg ws) st).workflows_included =
        st.workflows_included +
          (names.filter (fun n => isWorkflowName n && wfReadOk ws n)).length ∧
      (names.foldl (processWorkflowName cfg ws) st).files_failed =
        st.files_failed +
          (names.filter (fun n => isWorkflowName n && !wfReadOk ws n)).length ∧
      (names.foldl (processWorkflowName cfg ws) st).ghost_workflow_failures =
        st.ghost_workflow_failures +
          (names.filter (fun n => isWorkflowName n && !wfReadOk ws n)).length ∧
      (names.foldl (processWorkflowName cfg ws) st).files_seen = st.files_seen ∧
      (names.foldl (processWorkflowName cfg ws) st).files_aggregated =
        st.files_aggregated ∧
      (names.foldl (processWorkflowName cfg ws) st).files_skipped_size =
        st.files_skipped_size ∧
      (names.foldl (processWorkflowName cfg ws) st).files_skipped_binary =
        st.files_skipped_binary ∧
      (names.foldl (processWorkflowName cfg ws) st).ghost_output_skips =
        st.ghost_output_skips := by
  induction names with
  | nil =>
    intro st
    simp [strConcat, string_append_empty]
  | cons n rest ih =>
    intro st
    have hfold : List.foldl (processWorkflowName cfg ws) st (n :: rest) =
        List.foldl (processWorkflowName cfg ws) (processWorkflowName cfg ws st n) rest := rfl
    by_cases hn : isWorkflowName n = true
    · by_cases hr : wfReadOk ws n = true
      · have hpn : processWorkflowName cfg ws st n =
            { st with out := st.out ++ wfRecord ws n,
                      workflows_included := st.workflows_included + 1 } := by
          rw [processWorkflowName_eq, if_pos hn, if_pos hr]
        obtain ⟨io, iw, ifl, ig, is1, ia, iss, isb, igo⟩ :=
          ih { st with out := st.out ++ wfRecord ws n,
                       workflows_included := st.workflows_included + 1 }
        have hfilt1 : List.filter (fun n => isWorkflowName n) (n :: rest) =
            n :: List.filter (fun n => isWorkflowName n) rest := by
          simp [List.filter_cons, hn]
        have hfilt2 :
            List.filter (fun n => isWorkflowName n && wfReadOk ws n) (n :: rest) =
              n :: List.filter (fun n => isWorkflowName n && wfReadOk ws n) rest := by
          simp [List.filter_cons, hn, hr]
        have hfilt3 :
            List.filter (fun n => isWorkflowName n && !wfReadOk ws n) (n :: rest) =
              List.filter (fun n => isWorkflowName n && !wfReadOk ws n) rest := by
          simp [List.filter_cons, hn, hr]
        rw [hfold, hpn]
        refine ⟨?_, ?_, ?_, ?_, is1, ia, iss, isb, igo⟩
        · rw [io, hfilt1, List.map_cons]
          dsimp only
          show st.out ++ wfRecord ws n ++ _ = _
          rw [string_append_assoc]
          rfl
        · rw [iw, hfilt2, List.length_cons]
          dsimp only
          omega
        · rw [ifl, hfilt3]
        · rw [ig, hfilt3]
      · have hpn : processWorkflowName cfg ws st n =
            { st with files_failed := st.files_failed + 1,
                      ghost_workflow_failures := st.ghost_workflow_failures + 1 } := by
          rw [processWorkflowName_eq, if_pos hn, if_neg hr]
        obtain ⟨io, iw, ifl, ig, is1, ia, iss, isb, igo⟩ :=
          ih { st with files_failed := st.files_failed + 1,
                       ghost_workflow_failures := st.ghost_workflow_failures + 1 }
        have hrf : wfReadOk ws n = false := by
          cases h : wfReadOk ws n
          · rfl
          · exact absurd h hr
        have hwf0 : wfRecord ws n = "" := wfRecord_of_not_readOk ws n hr
        have hfilt1 : List.filter (fun n => isWorkflowName n) (n :: rest) =
            n :: List.filter (fun n => isWorkflowName n) rest := by
          simp [List.filter_cons, hn]
        have hfilt2 :
            List.filter (fun n => isWorkflowName n && wfReadOk ws n) (n :: rest) =
              List.filter (fun n => isWorkflowName n && wfReadOk ws n) rest := by
          simp [List.filter_cons, hn, hrf]
        have hfilt3 :
            List.filter (fun n => isWorkflowName n && !wfReadOk ws n) (n :: rest) =
              n :: List.filter (fun n => isWorkflowName n && !wfReadOk ws n) rest := by
          simp [List.filter_cons, hn, hrf]
        rw [hfold, hpn]
        refine ⟨?_, ?_, ?_, ?_, is1, ia, iss, isb, igo⟩
        · rw [io, hfilt1, List.map_cons, hwf0]
          dsimp only
          show st.out ++ _ = st.out ++ ("" ++ _)
          rw [string_empty_append]
        · rw [iw, hfilt2]
        · rw [ifl, hfilt3, List.length_cons]
          dsimp only
          omega
        · rw [ig, hfilt3, List.length_cons]
          dsimp only
          omega
    · have hpn : processWorkflowName cfg ws st n = st := by
        rw [processWorkflowName_eq, if_neg hn]
      obtain ⟨io, iw, ifl, ig, is1, ia, iss, isb, igo⟩ := ih st
      have hnf : isWorkflowName n = false := by
        cases h : isWorkflowName n
        · rfl
        · exact absurd h hn
      have hfilt1 : List.filter (fun n => isWorkflowName n) (n :: rest) =
          List.filter (fun n => isWorkflowName n) rest := by
        simp [List.filter_cons, hnf]
      have hfilt2 :
          List.filter (fun n => isWorkflowName n && wfReadOk ws n) (n :: rest) =
            List.filter (fun n => isWorkflowName n && wfReadOk ws n) rest := by
        simp [List.filter_cons, hnf]
      have hfilt3 :
          List.filter (fun n => isWorkflowName n && !wfReadOk ws n) (n :: rest) =
            List.filter (fun n => isWorkflowName n && !wfReadOk ws n) rest := by
        simp [List.filter_cons, hnf]
      rw [hfold, hpn]
      refine ⟨?_, ?_, ?_, ?_, is1, ia, iss, isb, igo⟩
      · rw [hfilt1]; exact io
      · rw [hfilt2]; exact iw
      · rw [hfilt3]; exact ifl
      · rw [hfilt3]; exact ig

/-- When enabled and the workflow directory exists, the workflow phase is
exactly the fold of the loop body over the sorted name listing. -/
theorem workflowPhase_eq_fold (cfg : RunConfig) (root gh ws : EntryList) (st : St)
    (hinc : cfg.include_git_workflows = true)
    (hgh : findDir root ".github" = some gh)
    (hws : findDir gh "workflows" = some ws) :
    workflowPhase cfg root st =
      (sortStrings (listNames ws)).foldl (processWorkflowName cfg ws) st := by
  unfold workflowPhase
  rw [hinc, hgh]
  simp only [reduceIte]
  rw [hws]

/-- The workflow phase does not touch `files_seen` and preserves the C1
accounting balance. -/
theorem workflowPhase_facts (cfg : RunConfig) (root : EntryList) (st : St) :
    (workflowPhase cfg root st).files_seen = st.files_seen ∧
    (counters_balanced st → counters_balanced (workflowPhase cfg root st)) := by
  by_cases hinc : cfg.include_git_workflows = true
  · cases hgh : findDir root ".github" with
    | none =>
      have heq : workflowPhase cfg root st = st := by
        unfold workflowPhase
        rw [hinc, hgh]
        simp only [reduceIte]
      rw [heq]
      exact ⟨rfl, fun h => h⟩
    | some gh =>
      cases hws : findDir gh "workflows" with
      | none =>
        have heq : workflowPhase cfg root st = st := by
          unfold workflowPhase
          rw [hinc, hgh]
          simp only [reduceIte]
          rw [hws]
        rw [heq]
        exact ⟨rfl, fun h => h⟩
      | some ws =>
        rw [workflowPhase_eq_fold cfg root gh ws st hinc hgh hws]
        obtain ⟨io, iw, ifl, ig, is1, ia, iss, isb, igo⟩ :=
          wfFold_spec cfg ws (sortStrings (listNames ws)) st
        refine ⟨is1, fun h => ?_⟩
        unfold counters_balanced at *
        rw [is1, ifl, ig, ia, iss, isb, igo]
        omega
  · have heq : workflowPhase cfg root st = st := by
      unfold workflowPhase
      rw [if_neg hinc]
    rw [heq]
    exact ⟨rfl, fun h => h⟩
/-- C1 counterexample: with the workflow phase enabled and a workflow file
whose read fails, the final counters violate the claimed relation — the
failed workflow read increments `files_failed` without incrementing
`files_seen`, so `files_seen = 1` falls strictly below the four-bucket sum
`2` although the output file was never encountered (`ghost_output_skips =
0`), where the claim allows `files_seen` only to exceed the sum. -/
theorem seen_balance_counterexample :
    (aggregate_project_files cfgW (some treeWfFail)).toOption.map
        (fun st => (st.files_seen,
          st.files_aggregated + st.files_skipped_size + st.files_skipped_binary +
            st.files_failed,
          st.ghost_output_skips)) = some (1, 2, 0) ∧ (1 : Nat) < 2 :=
  ⟨by decide, by decide⟩

/-- C1 amended: in every completed run, `files_seen` plus the number of
workflow-phase read failures equals `files_aggregated + files_skipped_size +
files_skipped_binary + files_failed` plus the number of output-file
encounters; so every tree-phase candidate lands in exactly one bucket, with
a +1 excess on `seen` per output-file encounter and a −1 deficit per
workflow-phase read failure (which increments `failed` but not `seen`). -/
theorem aggregate_counters_balanced (cfg : RunConfig) (root : Option EntryList)
    (st : St) (h : aggregate_project_files cfg root = Except.ok st) :
    st.files_seen + st.ghost_workflow_failures =
      st.files_aggregated + st.files_skipped_size + st.files_skipped_binary +
        st.files_failed + st.ghost_output_skips := by
  cases root with
  | none => exact absurd h (by simp [aggregate_project_files])
  | some es =>
    rw [show aggregate_project_files cfg (some es) =
        Except.ok (walkTree cfg (workflowPhase cfg es initSt) es) from rfl] at h
    injection h with h'
    subst h'
    obtain ⟨-, hbal1⟩ := workflowPhase_facts cfg es initSt
    obtain ⟨-, -, -, -, hbal2⟩ := walkTree_facts cfg (workflowPhase cfg es initSt) es
    exact hbal2 (hbal1 rfl)

/-- Witness for C1 (amended) on a concrete completed run. -/
theorem aggregate_counters_balanced_witness :
    ∃ st, aggregate_project_files cfgT (some treeOneFile) = Except.ok st ∧
      st.files_seen + st.ghost_workflow_failures =
        st.files_aggregated + st.files_skipped_size + st.files_skipped_binary +
          st.files_failed + st.ghost_output_skips :=
  ⟨_, rfl, aggregate_counters_balanced cfgT (some treeOneFile) _ rfl⟩

/-- C2 counterexample: with workflows enabled and the tree containing only
`.github/workflows/{deploy.yaml, ci.yml}`, both workflow files are emitted
by the workflow phase (`workflows_included = 2`) yet the tree phase counts
them again (`files_seen = 2`, not 0) and even re-aggregates them as `FILE`
records (`files_aggregated = 2`). -/
theorem workflow_double_count_counterexample :
    (aggregate_project_files cfgW (some treeTwoWf)).toOption.map
        (fun st => (st.workflows_included, st.files_seen, st.files_aggregated)) =
      some (2, 2, 2) := by decide

/-- C2 amended: the tree phase applies no deduplication against the
workflow phase: `.github` and `workflows` are not in `SKIP_DIRS`, so the
walk revisits the workflow directory and the final `files_seen` is the full
pruned-tree file count — workflow files already emitted in the workflow
phase are counted again (double-counted) in the tree-phase total. -/
theorem tree_phase_counts_workflow_files (cfg : RunConfig) (root : EntryList)
    (st : St) (h : aggregate_project_files cfg (some root) = Except.ok st) :
    st.files_seen = seenTotal root ∧
    ".github" ∉ SKIP_DIRS ∧ "workflows" ∉ SKIP_DIRS := by
  refine ⟨?_, by decide, by decide⟩
  rw [show aggregate_project_files cfg (some root) =
      Except.ok (walkTree cfg (workflowPhase cfg root initSt) root) from rfl] at h
  injection h with h'
  subst h'
  obtain ⟨hseen1, -⟩ := workflowPhase_facts cfg root initSt
  obtain ⟨hseen2, -, -, -, -⟩ := walkTree_facts cfg (workflowPhase cfg root initSt) root
  rw [hseen2, hseen1]
  show 0 + seenTotal root = seenTotal root
  omega

/-- Witness for C2 (amended): on the two-workflow-file tree, the final seen
total is the full tree count (2), both files having been emitted before. -/
theorem tree_phase_counts_workflow_files_witness :
    ∃ st, aggregate_project_files cfgW (some treeTwoWf) = Except.ok st ∧
      st.files_seen = seenTotal treeTwoWf ∧
      ".github" ∉ SKIP_DIRS ∧ "workflows" ∉ SKIP_DIRS :=
  ⟨_, rfl, tree_phase_counts_workflow_files cfgW treeTwoWf _ rfl⟩

/-- The file pass never looks inside directory entries, so pruning the
excluded subtrees does not change it. -/
theorem filesPass_prune (cfg : RunConfig) (rel : String) :
    ∀ (es : EntryList) (st : St),
      filesPass cfg rel st (pruneList es) = filesPass cfg rel st es
  | .nil, _ => rfl
  | .cons (.file n s c) es, st => by
    rw [show filesPass cfg rel st (pruneList (.cons (.file n s c) es)) =
        filesPass cfg rel (processFile cfg rel st n s c) (pruneList es) from rfl]
    rw [filesPass_prune cfg rel es (processFile cfg rel st n s c)]
    rfl
  | .cons (.dir d sub) es, st => by
    have hp : pruneList (.cons (.dir d sub) es) =
        if d ∈ SKIP_DIRS then pruneList es
        else .cons (pruneEntry (.dir d sub)) (pruneList es) := rfl
    by_cases hd : d ∈ SKIP_DIRS
    · rw [hp, if_pos hd, filesPass_prune cfg rel es st]
      rfl
    · rw [hp, if_neg hd]
      rw [show filesPass cfg rel st (.cons (pruneEntry (.dir d sub)) (pruneList es)) =
          filesPass cfg rel st (pruneList es) from rfl]
      rw [filesPass_prune cfg rel es st]
      rfl

mutual
/-- Descent into a pruned entry equals descent into the original entry: an
excluded-name directory contributes nothing either way, and a kept
directory recursively yields the same walk. -/
theorem walkSub_prune (cfg : RunConfig) :
    ∀ (e : Entry) (rel : String) (st : St),
      walkSub cfg rel st (pruneEntry e) = walkSub cfg rel st e
  | .file _ _ _, _, _ => rfl
  | .dir d sub, rel, st => by
    rw [show pruneEntry (.dir d sub) = .dir d (pruneList sub) from rfl]
    rw [show walkSub cfg rel st (.dir d (pruneList sub)) =
        if d ∈ SKIP_DIRS then st
        else walkList cfg (joinRel rel d)
          (filesPass cfg (joinRel rel d) st (pruneList sub)) (pruneList sub) from rfl]
    rw [show walkSub cfg rel st (.dir d sub) =
        if d ∈ SKIP_DIRS then st
        else walkList cfg (joinRel rel d)
          (filesPass cfg (joinRel rel d) st sub) sub from rfl]
    by_cases hd : d ∈ SKIP_DIRS
    · rw [if_pos hd, if_pos hd]
    · rw [if_neg hd, if_neg hd, filesPass_prune cfg (joinRel rel d) sub st,
        walkList_prune cfg sub (joinRel rel d)
          (filesPass cfg (joinRel rel d) st sub)]
/-- Descent into a pruned child list equals descent into the original
children. -/
theorem walkList_prune (cfg : RunConfig) :
    ∀ (es : EntryList) (rel : String) (st : St),
      walkList cfg rel st (pruneList es) = walkList cfg rel st es
  | .nil, _, _ => rfl
  | .cons (.file n s c) es, rel, st => by
    rw [show walkList cfg rel st (pruneList (.cons (.file n s c) es)) =
        walkList cfg rel (walkSub cfg rel st (.file n s c)) (pruneList es) from rfl]
    exact walkList_prune cfg es rel (walkSub cfg rel st (.file n s c))
  | .cons (.dir d sub) es, rel, st => by
    have hp : pruneList (.cons (.dir d sub) es) =
        if d ∈ SKIP_DIRS then pruneList es
        else .cons (pruneEntry (.dir d sub)) (pruneList es) := rfl
    by_cases hd : d ∈ SKIP_DIRS
    · rw [hp, if_pos hd, walkList_prune cfg es rel st]
      rw [show walkList cfg rel st (.cons (.dir d sub) es) =
          walkList cfg rel (walkSub cfg rel st (.dir d sub)) es from rfl]
      rw [show walkSub cfg rel st (.dir d sub) =
          if d ∈ SKIP_DIRS then st
          else walkList cfg (joinRel rel d)
            (filesPass cfg (joinRel rel d) st sub) sub from rfl]
      rw [if_pos hd]
    · rw [hp, if_neg hd]
      rw [show walkList cfg rel st (.cons (pruneEntry (.dir d sub)) (pruneList es)) =
          walkList cfg rel (walkSub cfg rel st (pruneEntry (.dir d sub))) (pruneList es)
        from rfl]
      rw [walkSub_prune cfg (.dir d sub) rel st]
      rw [walkList_prune cfg es rel (walkSub cfg rel st (.dir d sub))]
      rfl
end

/-- C6: every subdirectory whose name is in the exclusion set is pruned
before descent, at every depth of the tree: walking any tree gives exactly
the same state (all counters and all output bytes) as walking the tree from
which every excluded-name subdirectory's entire subtree has been deleted
(`pruneList`) — so no file under any such subtree, however deeply nested,
is ever visited, counted in any counter, or emitted as a record. -/
theorem skip_dir_subtree_pruned (cfg : RunConfig) (st : St) (es : EntryList) :
    walkTree cfg st es = walkTree cfg st (pruneList es) := by
  unfold walkTree
  rw [filesPass_prune cfg "" es st,
    walkList_prune cfg es "" (filesPass cfg "" st es)]

/-- Witness for C6 at a nested excluded directory: the walk over
`src/{node_modules/secret.txt, a.txt}` equals the walk of the pruned tree
`src/a.txt`; `secret.txt` is not counted in `files_seen` and the output
holds a record for `src/a.txt` only — no record ever mentions
`secret.txt`. -/
theorem skip_dir_subtree_pruned_witness :
    walkTree cfgT initSt treeNested = walkTree cfgT initSt (pruneList treeNested) ∧
    pruneList treeNested =
      el [.dir "src" (el [.file "a.txt" (some 5) (some "hello")])] ∧
    (walkTree cfgT initSt treeNested).files_seen = 1 ∧
    (walkTree cfgT initSt treeNested).out =
      writeRecord "" "FILE" "src/a.txt" "hello" :=
  ⟨skip_dir_subtree_pruned cfgT initSt treeNested, rfl, by decide, by decide⟩

/-- C8: only the initial root-validity check is fatal.  An invalid root
yields exactly the reported error and the run produces no state and no
output; under a valid root the run always returns an `ok` summary, whatever
per-file failures the tree holds; and a per-file stat failure just
increments `files_failed` (after `files_seen`) while the file pass
continues with the remaining entries. -/
theorem root_check_only_fatal (cfg : RunConfig) (root : Option EntryList) :
    (aggregate_project_files cfg none =
      Except.error ("Root directory does not exist or is not a directory: " ++
        cfg.root_dir)) ∧
    ((aggregate_project_files cfg root).toOption.isSome = root.isSome) ∧
    (∀ (rel_dir name : String) (content : Option String) (es : EntryList) (st : St),
      cfg.root_dir ++ "/" ++ joinRel rel_dir name ≠ cfg.output_path →
      filesPass cfg rel_dir st (.cons (.file name none content) es) =
        filesPass cfg rel_dir
          { st with files_seen := st.files_seen + 1,
                    files_failed := st.files_failed + 1 } es) := by
  refine ⟨rfl, ?_, ?_⟩
  · cases root <;> rfl
  · intro rel_dir name content es st hne
    rw [show filesPass cfg rel_dir st (.cons (.file name none content) es) =
        filesPass cfg rel_dir (processFile cfg rel_dir st name none content) es
      from rfl]
    rw [(processFile_cases cfg rel_dir name st none content).2.1 hne rfl]

/-- Witness for C8: the concrete error on a missing root, and a stat
failure in front of a healthy file that still gets processed. -/
theorem root_check_only_fatal_witness :
    aggregate_project_files cfgT none =
      Except.error "Root directory does not exist or is not a directory: /proj" ∧
    filesPass cfgT "" initSt
        (.cons (.file "bad.txt" none none) (el [.file "a.txt" (some 5) (some "hello")])) =
      filesPass cfgT "" { initSt with files_seen := 1, files_failed := 1 }
        (el [.file "a.txt" (some 5) (some "hello")]) := by
  refine ⟨(root_check_only_fatal cfgT none).1, ?_⟩
  exact (root_check_only_fatal cfgT none).2.2 "" "bad.txt" none
    (el [.file "a.txt" (some 5) (some "hello")]) initSt (by decide)

/-- C10: the exclusion set is matched only against directory names during
descent: a regular file whose name is in the exclusion set is still seen,
classified and aggregated when textual; the pruning step ignores file
entries entirely; and the walk processes the root's files for every
configuration — the root directory's own basename is never tested against
the exclusion set. -/
theorem skip_dirs_only_match_directories (cfg : RunConfig) (rel_dir name : String)
    (st : St) (sz : Nat) (c : String)
    (_hname : name ∈ SKIP_DIRS)
    (hne : cfg.root_dir ++ "/" ++ joinRel rel_dir name ≠ cfg.output_path)
    (hsz : ¬ sz > cfg.max_bytes)
    (hbin : is_probably_binary c defaultRatio = false) :
    processFile cfg rel_dir st name (some sz) (some c) =
      { st with files_seen := st.files_seen + 1,
                files_aggregated := st.files_aggregated + 1,
                out := writeRecord st.out "FILE" (joinRel rel_dir name) c } ∧
    (∀ (sz' : Option Nat) (c' : Option String),
      walkSub cfg rel_dir st (.file name sz' c') = st) ∧
    walkTree cfg st (el [.file name (some sz) (some c)]) =
      processFile cfg "" st name (some sz) (some c) := by
  refine ⟨?_, fun sz' c' => rfl, rfl⟩
  exact (processFile_cases cfg rel_dir name st (some sz) (some c)).2.2.2.2.2
    sz c hne rfl hsz rfl hbin

/-- Witness for C10: a file named `node_modules`, inside a root whose own
basename is `node_modules`, is still aggregated with a record. -/
theorem skip_dirs_only_match_directories_witness :
    processFile cfgNM "" initSt "node_modules" (some 5) (some "hello") =
      { initSt with files_seen := 1, files_aggregated := 1,
                    out := writeRecord "" "FILE" "node_modules" "hello" } ∧
    walkSub cfgNM "" initSt (.file "node_modules" (some 5) (some "hello")) = initSt ∧
    walkTree cfgNM initSt (el [.file "node_modules" (some 5) (some "hello")]) =
      processFile cfgNM "" initSt "node_modules" (some 5) (some "hello") := by
  obtain ⟨h1, h2, h3⟩ := skip_dirs_only_match_directories cfgNM "" "node_modules"
    initSt 5 "hello" (by decide) (by decide) (by decide) (by decide)
  exact ⟨h1, h2 (some 5) (some "hello"), h3⟩

/-- Code-point lexicographic order is total. -/
theorem charListLe_total : ∀ (a b : List Char),
    charListLe a b = true ∨ charListLe b a = true
  | [], _ => Or.inl rfl
  | _ :: _, [] => Or.inr rfl
  | a :: as, b :: bs => by
    by_cases h1 : a.toNat < b.toNat
    · left
      unfold charListLe
      rw [if_pos h1]
    · by_cases h2 : b.toNat < a.toNat
      · right
        unfold charListLe
        rw [if_pos h2]
      · have ih := charListLe_total as bs
        unfold charListLe
        rw [if_neg h1, if_neg h2, if_neg h2, if_neg h1]
        exact ih

/-- Code-point lexicographic order is transitive. -/
theorem charListLe_trans : ∀ (a b c : List Char),
    charListLe a b = true → charListLe b c = true → charListLe a c = true
  | [], _, _ => fun _ _ => rfl
  | _ :: _, [], _ => fun h _ => by simp [charListLe] at h
  | _ :: _, _ :: _, [] => fun _ h => by simp [charListLe] at h
  | a :: as, b :: bs, c :: cs => fun h1 h2 => by
    unfold charListLe at h1 h2 ⊢
    by_cases hab : a.toNat < b.toNat
    · rw [if_pos hab] at h1
      by_cases hbc : b.toNat < c.toNat
      · rw [if_pos (show a.toNat < c.toNat by omega)]
      · rw [if_neg hbc] at h2
        by_cases hcb : c.toNat < b.toNat
        · rw [if_pos hcb] at h2
          simp at h2
        · rw [if_pos (show a.toNat < c.toNat by omega)]
    · rw [if_neg hab] at h1
      by_cases hba : b.toNat < a.toNat
      · rw [if_pos hba] at h1
        simp at h1
      · rw [if_neg hba] at h1
        by_cases hbc : b.toNat < c.toNat
        · rw [if_pos (show a.toNat < c.toNat by omega)]
        · rw [if_neg hbc] at h2
          by_cases hcb : c.toNat < b.toNat
          · rw [if_pos hcb] at h2
            simp at h2
          · rw [if_neg hcb] at h2
            rw [if_neg (show ¬ a.toNat < c.toNat by omega),
              if_neg (show ¬ c.toNat < a.toNat by omega)]
            exact charListLe_trans as bs cs h1 h2

/-- Python string `<=` is total. -/
theorem strLe_total (a b : String) : strLe a b = true ∨ strLe b a = true :=
  charListLe_total a.toList b.toList

/-- Python string `<=` is transitive. -/
theorem strLe_trans {a b c : String} (h1 : strLe a b = true)
    (h2 : strLe b c = true) : strLe a c = true :=
  charListLe_trans a.toList b.toList c.toList h1 h2

instance : IsTotal String (fun a b => strLe a b = true) := ⟨strLe_total⟩

instance : IsTrans String (fun a b => strLe a b = true) :=
  ⟨fun _ _ _ => strLe_trans⟩

/-- C7: with the workflow phase enabled and `root/.github/workflows`
present, the loop iterates over the name listing in sorted code-point
lexicographic order (a permutation of the directory's names); the phase
output is exactly the concatenation of one `GIT WORKFLOW` record with
root-relative path per recognised `.yml`/`.yaml` name in that order (a
failed read contributing nothing); `workflows_included` counts exactly the
recognised names whose read succeeds and `files_failed` exactly those whose
read fails; the run still completes, and the whole workflow-phase output is
a prefix of the final output — every workflow record precedes every
tree-phase record. -/
theorem workflow_phase_spec (cfg : RunConfig) (root gh ws : EntryList) (st : St)
    (hinc : cfg.include_git_workflows = true)
    (hgh : findDir root ".github" = some gh)
    (hws : findDir gh "workflows" = some ws)
    (hrun : aggregate_project_files cfg (some root) = Except.ok st) :
    List.Sorted (fun a b => strLe a b = true) (sortStrings (listNames ws)) ∧
    (sortStrings (listNames ws)).Perm (listNames ws) ∧
    (workflowPhase cfg root initSt).out =
      strConcat (((sortStrings (listNames ws)).filter
        (fun n => isWorkflowName n)).map (wfRecord ws)) ∧
    (workflowPhase cfg root initSt).workflows_included =
      ((sortStrings (listNames ws)).filter
        (fun n => isWorkflowName n && wfReadOk ws n)).length ∧
    (workflowPhase cfg root initSt).files_failed =
      ((sortStrings (listNames ws)).filter
        (fun n => isWorkflowName n && !wfReadOk ws n)).length ∧
    (∃ rest, st.out = (workflowPhase cfg root initSt).out ++ rest) := by
  obtain ⟨io, iw, ifl, ig, is1, ia, iss, isb, igo⟩ :=
    wfFold_spec cfg ws (sortStrings (listNames ws)) initSt
  have hwp := workflowPhase_eq_fold cfg root gh ws initSt hinc hgh hws
  refine ⟨List.sorted_insertionSort _ _, List.perm_insertionSort _ _, ?_, ?_, ?_, ?_⟩
  · rw [hwp, io]
    exact string_empty_append _
  · rw [hwp, iw, show initSt.workflows_included = 0 from rfl]
    omega
  · rw [hwp, ifl, show initSt.files_failed = 0 from rfl]
    omega
  · rw [show aggregate_project_files cfg (some root) =
      Except.ok (walkTree cfg (workflowPhase cfg root initSt) root) from rfl] at hrun
    injection hrun with h'
    subst h'
    obtain ⟨-, -, -, hout, -⟩ := walkTree_facts cfg (workflowPhase cfg root initSt) root
    exact hout

/-- Witness for C7 on a workflow directory listed out of order containing
`deploy.yaml` (readable), `ci.yml` (read fails) and `README.md` (not a
workflow name): one record included, one failure, output as specified. -/
theorem workflow_phase_spec_witness :
    (workflowPhase cfgW treeMixedWf initSt).workflows_included = 1 ∧
    (workflowPhase cfgW treeMixedWf initSt).files_failed = 1 ∧
    (workflowPhase cfgW treeMixedWf initSt).out =
      strConcat (((sortStrings (listNames wsMixed)).filter
        (fun n => isWorkflowName n)).map (wfRecord wsMixed)) := by
  obtain ⟨-, -, ho, hw, hf, -⟩ := workflow_phase_spec cfgW treeMixedWf
    (el [.dir "workflows" wsMixed]) wsMixed _ rfl rfl rfl rfl
  refine ⟨?_, ?_, ho⟩
  · rw [hw]
    decide
  · rw [hf]
    decide

/-- One per-file step is observably identical in the two implementations. -/
theorem processFile_obs (rd op : String) (mb : Nat) (rel name : String)
    (est : Extractor.St) (st : St) (s : Option Nat) (c : Option String)
    (h : Extractor.obs est = obs st) :
    Extractor.obs (Extractor.processFile ⟨rd, op, mb⟩ rel est name s c) =
      obs (processFile ⟨rd, op, mb, false⟩ rel st name s c) := by
  simp only [Extractor.obs, obs, Prod.mk.injEq] at h
  obtain ⟨h1, h2, h3, h4, h5, h6⟩ := h
  unfold Extractor.processFile processFile
  dsimp only
  by_cases hout : rd ++ "/" ++ joinRel rel name = op
  · rw [if_pos hout, if_pos hout]
    simp [Extractor.obs, obs, h1, h2, h3, h4, h5, h6]
  · rw [if_neg hout, if_neg hout]
    cases s with
    | none => simp [Extractor.obs, obs, h1, h2, h3, h4, h5, h6]
    | some sz =>
      dsimp only
      by_cases hbig : sz > mb
      · rw [if_pos hbig, if_pos hbig]
        simp [Extractor.obs, obs, h1, h2, h3, h4, h5, h6]
      · rw [if_neg hbig, if_neg hbig]
        cases c with
        | none => simp [Extractor.obs, obs, h1, h2, h3, h4, h5, h6]
        | some cc =>
          dsimp only
          by_cases hbin : is_probably_binary cc defaultRatio = true
          · rw [if_pos hbin, if_pos hbin]
            simp [Extractor.obs, obs, h1, h2, h3, h4, h5, h6]
          · rw [if_neg hbin, if_neg hbin]
            simp [Extractor.obs, obs, h1, h2, h3, h4, h5, h6]

/-- The file pass is observably identical in the two implementations. -/
theorem filesPass_obs (rd op : String) (mb : Nat) (rel : String) :
    ∀ (es : EntryList) (est : Extractor.St) (st : St),
      Extractor.obs est = obs st →
      Extractor.obs (Extractor.filesPass ⟨rd, op, mb⟩ rel est es) =
        obs (filesPass ⟨rd, op, mb, false⟩ rel st es)
  | .nil, _, _, h => h
  | .cons (.file n s c) es, est, st, h =>
    filesPass_obs rd op mb rel es _ _ (processFile_obs rd op mb rel n est st s c h)
  | .cons (.dir _ _) es, est, st, h => filesPass_obs rd op mb rel es est st h

mutual
/-- Descent into one child is observably identical in both implementations. -/
theorem walkSub_obs (rd op : String) (mb : Nat) (rel : String)
    (est : Extractor.St) (st : St) (e : Entry) (h : Extractor.obs est = obs st) :
    Extractor.obs (Extractor.walkSub ⟨rd, op, mb⟩ rel est e) =
      obs (walkSub ⟨rd, op, mb, false⟩ rel st e) :=
  match e with
  | .file _ _ _ => h
  | .dir d sub => by
    rw [show Extractor.walkSub ⟨rd, op, mb⟩ rel est (.dir d sub) =
        if d ∈ SKIP_DIRS then est
        else Extractor.walkList ⟨rd, op, mb⟩ (joinRel rel d)
          (Extractor.filesPass ⟨rd, op, mb⟩ (joinRel rel d) est sub) sub from rfl]
    rw [show walkSub ⟨rd, op, mb, false⟩ rel st (.dir d sub) =
        if d ∈ SKIP_DIRS then st
        else walkList ⟨rd, op, mb, false⟩ (joinRel rel d)
          (filesPass ⟨rd, op, mb, false⟩ (joinRel rel d) st sub) sub from rfl]
    by_cases hd : d ∈ SKIP_DIRS
    · rw [if_pos hd, if_pos hd]
      exact h
    · rw [if_neg hd, if_neg hd]
      exact walkList_obs rd op mb (joinRel rel d) _ _ sub
        (filesPass_obs rd op mb (joinRel rel d) sub est st h)
/-- Descent into all children is observably identical in both
implementations. -/
theorem walkList_obs (rd op : String) (mb : Nat) (rel : String)
    (est : Extractor.St) (st : St) (es : EntryList) (h : Extractor.obs est = obs st) :
    Extractor.obs (Extractor.walkList ⟨rd, op, mb⟩ rel est es) =
      obs (walkList ⟨rd, op, mb, false⟩ rel st es) :=
  match es with
  | .nil => h
  | .cons e rest =>
    walkList_obs rd op mb rel _ _ rest (walkSub_obs rd op mb rel est st e h)
end

/-- C9: for every root, output path and byte threshold, running
`extractor.py`'s `aggregate_project_files` is observably equivalent to
running `aggregate_project.py`'s with `include_git_workflows = False`: the
same abort behavior on an invalid root, and otherwise the same
seen/aggregated/skipped-size/skipped-binary/failed counters and the same
output-file bytes. -/
theorem extractor_equivalent (rd op : String) (mb : Nat) (root : Option EntryList) :
    (Extractor.aggregate_project_files ⟨rd, op, mb⟩ root).map Extractor.obs =
      (aggregate_project_files ⟨rd, op, mb, false⟩ root).map obs := by
  cases root with
  | none => rfl
  | some es =>
    show Except.ok (Extractor.obs (Extractor.walkTree ⟨rd, op, mb⟩ Extractor.initSt es)) =
      Except.ok (obs (walkTree ⟨rd, op, mb, false⟩
        (workflowPhase ⟨rd, op, mb, false⟩ es initSt) es))
    rw [show workflowPhase ⟨rd, op, mb, false⟩ es initSt = initSt from rfl]
    exact congrArg Except.ok
      (walkList_obs rd op mb "" (Extractor.filesPass ⟨rd, op, mb⟩ "" Extractor.initSt es)
        (filesPass ⟨rd, op, mb, false⟩ "" initSt es) es
        (filesPass_obs rd op mb "" es Extractor.initSt initSt rfl))
